import Mathlib

/-!
A shallow embedding of the core of `obsidian-cli` (a Go CLI for Obsidian
vaults) sufficient to settle the specification claims about its vault
scanner, link normalizer, boundary guard and rename transformer.

Strings are modelled as `List Char`; Go's byte-oriented string functions are
translated to their character-list counterparts (all inputs of interest are
ASCII, where the two views coincide).  Paths use the POSIX separator `/`,
matching the behaviour of Go's `path/filepath` on Unix, which is the
platform the repository documents.  Filesystem effects are made explicit:
the scanner takes the list of markdown files (relative path plus the list of
lines of its content) and the list of directories produced by the walker;
`filepath.Abs` takes the working directory as an explicit `Option` argument
(`none` models a failing `os.Getwd`).  The concurrent worker pool of
`ScanVault` merges per-occurrence updates into shared aggregates; the model
processes files sequentially in walker order, one deterministic schedule of
that pool.
-/

namespace ObsidianCLI

/-- Character-list view of a string literal. -/
def str (s : String) : List Char := s.data

/-- Models Go `strings.ToLower` on ASCII input (per-character lowering). -/
def toLowerGo (l : List Char) : List Char := l.map Char.toLower

/-- Models Go `strings.HasPrefix p l` (argument order: pattern first). -/
def startsWithCL (p l : List Char) : Bool := p.isPrefixOf l

/-- Models Go `strings.HasSuffix`. -/
def endsWithCL (p l : List Char) : Bool := p.isSuffixOf l

/-- Models Go `strings.TrimSuffix`: removes one copy of `suf` if present. -/
def trimSuffixCL (suf l : List Char) : List Char :=
  if suf.isSuffixOf l then l.take (l.length - suf.length) else l

/-- Models Go `strings.Split` on a single-character separator. -/
def splitOnChar (c : Char) : List Char → List (List Char)
  | [] => [[]]
  | x :: xs =>
    if x = c then [] :: splitOnChar c xs
    else
      match splitOnChar c xs with
      | h :: t => (x :: h) :: t
      | [] => [[x]]

/-- Models Go `filepath.Base` on Unix: trailing separators stripped, then the
last path element; `""` gives `"."` and an all-separator path gives `"/"`. -/
def goBase (l : List Char) : List Char :=
  if l = [] then str "." else
  let l1 := (l.reverse.dropWhile (· = '/')).reverse
  if l1 = [] then str "/"
  else (l1.reverse.takeWhile (· ≠ '/')).reverse

/-- Models Go `filepath.Ext`: the suffix of the final path element starting at
its final dot, or `[]` when the final element has no dot. -/
def goExt (l : List Char) : List Char :=
  let seg := l.reverse.takeWhile (· ≠ '/')
  if seg.contains '.' then ((seg.takeWhile (· ≠ '.')) ++ ['.']).reverse else []

/-! ### Link normalizer and classification (internal/vault, README §code) -/

/-- Models `strings.Cut s sep` for a single-character separator: the text
before the first occurrence, the text after it, and the found flag. -/
def goCut (sep : Char) (l : List Char) : List Char × List Char × Bool :=
  if sep ∈ l then (l.takeWhile (· ≠ sep), (l.dropWhile (· ≠ sep)).tail, true)
  else (l, [], false)

/-- `normalizeLink` from the vault package: cut at the first `#` when the link
contains a `#`, otherwise cut at the first `^`, otherwise unchanged. -/
def normalizeLink (link : List Char) : List Char :=
  match goCut '#' link with
  | (base, _, true) => base
  | _ =>
    match goCut '^' link with
    | (base, _, true) => base
    | _ => link

/-- The fixed asset-extension set of `isAssetFile`. -/
def assetExts : List (List Char) :=
  [str ".png", str ".jpg", str ".jpeg", str ".gif",
   str ".svg", str ".webp", str ".pdf", str ".mp3",
   str ".mp4", str ".wav", str ".mov", str ".zip"]

/-- `isAssetFile` from the vault package. -/
def isAssetFile (target : List Char) : Bool :=
  assetExts.contains (toLowerGo (goExt target))

/-- Models Go `strings.Contains` (substring occurrence). -/
def containsSub (pat : List Char) : List Char → Bool
  | [] => pat.isPrefixOf []
  | c :: cs => pat.isPrefixOf (c :: cs) || containsSub pat cs

/-- `isExternalLink` from the vault package. -/
def isExternalLink (target : List Char) : Bool :=
  containsSub (str "://") target || startsWithCL (str "mailto:") target

/-- `isFolderLink` from the vault package. -/
def isFolderLink (target : List Char) : Bool :=
  (str "/").isSuffixOf target

/-! ### Wikilink and embed extraction

`wikilinkRegex` is `\[\[([^\]|]+)(?:\|[^\]]+)?\]\]` and `embedRegex` is the
same with a leading `!`.  For these patterns Go's leftmost-first matching is
deterministic: the capture is the maximal run of characters other than `]`
and `|` (a shorter run would leave a capture-class character where `|` or
`]]` is required), and the optional alias branch is forced by whether the
next character is `|`.  `FindAllStringSubmatch` scans left to right and
continues after the end of each (non-overlapping) match. -/

/-- Characters admitted by the capture class `[^\]|]`. -/
def linkChar (c : Char) : Bool := c ≠ ']' && c ≠ '|'

/-- One attempted match of `wikilinkRegex` anchored at the head of the input;
returns the capture group and the remainder after the match. -/
def tryWikilinkAt : List Char → Option (List Char × List Char)
  | '[' :: '[' :: rest =>
    let cap := rest.takeWhile linkChar
    let rest1 := rest.dropWhile linkChar
    if cap.isEmpty then none
    else
      match rest1 with
      | ']' :: ']' :: tail => some (cap, tail)
      | '|' :: rest2 =>
        let al := rest2.takeWhile (· ≠ ']')
        let rest3 := rest2.dropWhile (· ≠ ']')
        if al.isEmpty then none
        else
          match rest3 with
          | ']' :: ']' :: tail => some (cap, tail)
          | _ => none
      | _ => none
  | _ => none

/-- One attempted match of `embedRegex` anchored at the head of the input. -/
def tryEmbedAt : List Char → Option (List Char × List Char)
  | '!' :: rest => tryWikilinkAt rest
  | _ => none

/-- Left-to-right non-overlapping scan; the fuel argument only bounds the
recursion and is always called with at least the input length. -/
def scanLinksAux (tryAt : List Char → Option (List Char × List Char)) :
    Nat → List Char → List (List Char)
  | 0, _ => []
  | _, [] => []
  | Nat.succ n, c :: cs =>
    match tryAt (c :: cs) with
    | some (cap, tail) => cap :: scanLinksAux tryAt n tail
    | none => scanLinksAux tryAt n cs

/-- All captures of `wikilinkRegex.FindAllStringSubmatch` on one line. -/
def extractWikilinks (l : List Char) : List (List Char) :=
  scanLinksAux tryWikilinkAt l.length l

/-- All captures of `embedRegex.FindAllStringSubmatch` on one line. -/
def extractEmbeds (l : List Char) : List (List Char) :=
  scanLinksAux tryEmbedAt l.length l

/-! ### Boundary guard (`isPathWithinVault`, vault package and cmd helpers) -/

/-- Models Go `filepath.Clean` on Unix: empty becomes `.`, `.` elements and
empty elements are dropped, `..` pops a preceding element (and is discarded
at the root of an absolute path, kept at the front of a relative one). -/
def goClean (p : List Char) : List Char :=
  if p = [] then str "." else
  let rooted := startsWithCL (str "/") p
  let comps := (splitOnChar '/' p).filter (fun c => !(c == ([] : List Char) || c == str "."))
  let outRev := comps.foldl (fun acc c =>
      if c == str ".." then
        match acc with
        | [] => if rooted then [] else [c]
        | top :: rest => if top == str ".." then c :: top :: rest else rest
      else c :: acc) ([] : List (List Char))
  let body := List.intercalate (str "/") outRev.reverse
  if rooted then '/' :: body
  else if body = [] then str "." else body

/-- Models Go `filepath.Abs`: an absolute path is cleaned as is; a relative
path is joined to the working directory, which is `none` when `os.Getwd`
fails (the only error case of `Abs`). -/
def goAbs (cwd : Option (List Char)) (p : List Char) : Option (List Char) :=
  if startsWithCL (str "/") p then some (goClean p)
  else
    match cwd with
    | none => none
    | some wd => some (goClean (wd ++ str "/" ++ p))

/-- `isPathWithinVault` (vault package; an identical copy lives in the cmd
helpers): canonicalize both paths, then accept equality or a prefix of the
canonical root followed by one separator; any `Abs` failure yields `false`. -/
def isPathWithinVault (cwd : Option (List Char)) (path vaultPath : List Char) : Bool :=
  match goAbs cwd vaultPath with
  | none => false
  | some v0 =>
    let absVault := goClean v0
    match goAbs cwd path with
    | none => false
    | some p0 =>
      let absPath := goClean p0
      absPath == absVault || startsWithCL (absVault ++ str "/") absPath

/-! ### Scan state and the per-file parser (`processFile`) -/

/-- A dead link record: `{SourceFile, Target, Line}`. -/
structure DeadLink where
  sourceFile : List Char
  target : List Char
  line : Nat
deriving DecidableEq

/-- The shared aggregates of `ScanResult` that `processFile` mutates. -/
structure ScanState where
  incomingLinks : List Char → Nat
  deadLinks : List DeadLink
  frontmatterErrs : List (List Char)

/-- The empty aggregates a scan starts from. -/
def initState : ScanState := ⟨fun _ => 0, [], []⟩

/-- `result.IncomingLinks[k]++` on the map modelled as a total function. -/
def bump (f : List Char → Nat) (k : List Char) : List Char → Nat :=
  fun x => if x = k then f x + 1 else f x

/-- The per-occurrence body of `processFile`: normalize; skip empty and
external targets; count the lowercase target; assets end here; folder links
are checked against the folder set; anything else is dead unless the file
set contains the target directly or with `.md` appended. -/
def processOccurrence (existingFiles existingFolders : List (List Char))
    (relPath : List Char) (lineNum : Nat) (st : ScanState) (rawTarget : List Char) :
    ScanState :=
  let target := normalizeLink rawTarget
  if target = [] then st
  else if isExternalLink target then st
  else
    let targetLower := toLowerGo target
    let st1 : ScanState := { st with incomingLinks := bump st.incomingLinks targetLower }
    if isAssetFile target then st1
    else if isFolderLink target then
      if existingFolders.contains targetLower then st1
      else { st1 with deadLinks := st1.deadLinks ++ [⟨relPath, target, lineNum⟩] }
    else if existingFiles.contains targetLower || existingFiles.contains (targetLower ++ str ".md") then st1
    else { st1 with deadLinks := st1.deadLinks ++ [⟨relPath, target, lineNum⟩] }

/-- One line of `processFile`: every capture of the wikilink regex followed by
every capture of the embed regex (`allMatches = append(wikilink, embed...)`),
each processed independently. -/
def processLine (existingFiles existingFolders : List (List Char))
    (relPath : List Char) (lineNum : Nat) (line : List Char) (st : ScanState) : ScanState :=
  (extractWikilinks line ++ extractEmbeds line).foldl
    (processOccurrence existingFiles existingFolders relPath lineNum) st

/-- `bufio.MaxScanTokenSize`: the token limit of the default `bufio.Scanner`
that `processFile` builds with `bufio.NewScanner`.  A longer line makes
`Scan` fail with `ErrTooLong`; the exact one-byte boundary is immaterial to
every claim below, which stays far from it. -/
def maxScanTokenSize : Nat := 65536

/-- The line loop of `processFile`: lines are consumed in order until the
scanner fails on an over-long line (the early `return` on `scanner.Err()`
keeps the contributions already merged but records no frontmatter issue);
line 1 starting with `---` marks frontmatter present, and a file whose scan
completes without it is appended to the frontmatter issue list. -/
def processLinesAux (existingFiles existingFolders : List (List Char)) (relPath : List Char) :
    List (List Char) → Nat → Bool → ScanState → ScanState
  | [], _, hasFM, st =>
    if hasFM then st else { st with frontmatterErrs := st.frontmatterErrs ++ [relPath] }
  | line :: rest, lineNum, hasFM, st =>
    if maxScanTokenSize < line.length then st
    else
      processLinesAux existingFiles existingFolders relPath rest (lineNum + 1)
        (hasFM || ((lineNum + 1) == 1 && startsWithCL (str "---") line))
        (processLine existingFiles existingFolders relPath (lineNum + 1) line st)

/-- `processFile` on a file that passed the boundary check and opened
successfully (a failing open or boundary check contributes nothing and is
modelled by the caller omitting the file). -/
def processFile (existingFiles existingFolders : List (List Char))
    (relPath : List Char) (lines : List (List Char)) (st : ScanState) : ScanState :=
  processLinesAux existingFiles existingFolders relPath lines 0 false st

/-! ### Vault-level scan (`ScanVault`) -/

/-- A markdown file as the walker hands it to the scanner: its path relative
to the vault root and the lines of its content. -/
structure VaultFile where
  relPath : List Char
  lines : List (List Char)
deriving DecidableEq

/-- `strings.TrimSuffix(s, ".md")`. -/
def trimMd (l : List Char) : List Char := trimSuffixCL (str ".md") l

/-- The three lowercase key variants of a markdown file: extension-stripped
relative path, relative path, and bare basename without extension — exactly
the keys `ScanVault` inserts into `existingFiles` and reads back when
computing orphans. -/
def fileKeys (relPath : List Char) : List (List Char) :=
  [toLowerGo (trimMd relPath), toLowerGo relPath, toLowerGo (trimMd (goBase relPath))]

/-- The `existingFiles` lookup set (set membership is all that is used). -/
def buildExistingFiles (files : List VaultFile) : List (List Char) :=
  (files.map (fun f => fileKeys f.relPath)).flatten

/-- The `existingFolders` lookup set: every directory relative path (the root
`.` is excluded by `ScanVault`) with and without a trailing separator. -/
def buildExistingFolders (folders : List (List Char)) : List (List Char) :=
  (folders.map (fun d => [toLowerGo (d ++ str "/"), toLowerGo d])).flatten

/-- The orphan test of `ScanVault`'s post-pass: all three lowercase keys have
zero incoming links, and the basename (extension included) does not start
with `_` and does not start with `index`. -/
def isOrphanFile (incoming : List Char → Nat) (relPath : List Char) : Bool :=
  (incoming (toLowerGo (trimMd relPath)) == 0) &&
  (incoming (toLowerGo relPath) == 0) &&
  (incoming (toLowerGo (trimMd (goBase relPath))) == 0) &&
  !(startsWithCL (str "_") (goBase relPath)) &&
  !(startsWithCL (str "index") (goBase relPath))

/-- The orphan list: the relative paths of the orphaned files, in walker
order. -/
def orphanList (files : List VaultFile) (incoming : List Char → Nat) : List (List Char) :=
  (files.filter (fun f => isOrphanFile incoming f.relPath)).map (·.relPath)

/-- The parts of `ScanResult` the claims are about. -/
structure ScanOutcome where
  incomingLinks : List Char → Nat
  deadLinks : List DeadLink
  frontmatterErrs : List (List Char)
  orphans : List (List Char)

/-- `ScanVault`: build the existence sets, process every markdown file, then
compute the orphan list from the fully populated incoming-link counts.  The
worker pool is modelled by its sequential schedule in walker order. -/
def scanVault (files : List VaultFile) (folders : List (List Char)) : ScanOutcome :=
  let ef := buildExistingFiles files
  let efo := buildExistingFolders folders
  let st := files.foldl (fun st f => processFile ef efo f.relPath f.lines st) initState
  ⟨st.incomingLinks, st.deadLinks, st.frontmatterErrs, orphanList files st.incomingLinks⟩

/-! ### Rename: resolution (`findNoteFile`, cmd helpers) -/

/-- The failure modes of note resolution. -/
inductive FindNoteError
  | notFound
  | ambiguous (found : List (List Char))
deriving DecidableEq

/-- The `WalkDir` loop of `findNoteFile`: an exact relative-path match stops
the walk (`SkipAll`); otherwise basename matches accumulate in walk order. -/
def findNoteAux (noteLower noteBaseLower : List Char) :
    List (List Char) → List (List Char) → Option (List Char) × List (List Char)
  | [], acc => (none, acc)
  | f :: rest, acc =>
    if toLowerGo (trimMd f) = noteLower then (some f, acc)
    else if toLowerGo (trimMd (goBase f)) = noteBaseLower then
      findNoteAux noteLower noteBaseLower rest (acc ++ [f])
    else findNoteAux noteLower noteBaseLower rest acc

/-- `findNoteFile` (cmd helpers): exact path match wins; with none, zero
basename matches is a not-found error, two or more is an ambiguous error
listing the matches, and exactly one resolves to that file.  The symlink
re-check on the returned path needs no modelling here: the walker hands over
plain relative paths. -/
def findNoteFile (files : List (List Char)) (noteName : List Char) :
    Except FindNoteError (List Char) :=
  match findNoteAux (toLowerGo noteName) (toLowerGo (goBase noteName)) files [] with
  | (some f, _) => .ok f
  | (none, []) => .error .notFound
  | (none, [f]) => .ok f
  | (none, ms) => .error (.ambiguous ms)

/-! ### Rename: backlink search (`findBacklinksForRename`, cmd/rename.go) -/

/-- A backlink finding `{SourceFile, Line, Context}`. -/
structure BacklinkResult where
  sourceFile : List Char
  line : Nat
  context : List Char
deriving DecidableEq

/-- The per-line match test of `scanFileForRenameBacklinks`: some wikilink
capture on the line whose lowercase normalized target has the sought
basename, or equals the sought identifier (at most one result per line). -/
def renameLineMatches (targetBaseName targetLower line : List Char) : Bool :=
  (extractWikilinks line).any (fun m =>
    let linkTarget := toLowerGo (normalizeLink m)
    toLowerGo (goBase linkTarget) == targetBaseName || linkTarget == targetLower)

/-- The scanner loop of `scanFileForRenameBacklinks`; it uses the default
`bufio.Scanner`, so it stops at the first over-long line but keeps the
results found so far. -/
def scanRenameBacklinksAux (relPath targetBaseName targetLower : List Char) :
    List (List Char) → Nat → List BacklinkResult
  | [], _ => []
  | line :: rest, lineNum =>
    if maxScanTokenSize < line.length then []
    else
      (if renameLineMatches targetBaseName targetLower line
       then [⟨relPath, lineNum + 1, line⟩] else []) ++
      scanRenameBacklinksAux relPath targetBaseName targetLower rest (lineNum + 1)

/-- `scanFileForRenameBacklinks` on an opened file. -/
def scanFileForRenameBacklinks (relPath : List Char) (lines : List (List Char))
    (targetBaseName targetLower : List Char) : List BacklinkResult :=
  scanRenameBacklinksAux relPath targetBaseName targetLower lines 0

/-- `findBacklinksForRename`: every markdown file is scanned except those the
skip test drops — a file whose lowercase extension-stripped basename equals
the old identifier's lowercase basename, or whose lowercase
extension-stripped relative path equals the old identifier. -/
def findBacklinksForRename (files : List VaultFile) (targetNote : List Char) :
    List BacklinkResult :=
  let targetLower := toLowerGo targetNote
  let targetBaseName := toLowerGo (goBase targetNote)
  (files.map (fun f =>
    if toLowerGo (trimMd (goBase f.relPath)) == targetBaseName ||
       toLowerGo (trimMd f.relPath) == targetLower
    then []
    else scanFileForRenameBacklinks f.relPath f.lines targetBaseName targetLower)).flatten

/-! ### Rename: execution (`executeRename`, cmd/rename.go) -/

/-- The observable outcome of `executeRename`, paired below with whether the
final `os.Rename` call was reached. -/
inductive ExecOutcome
  | writeFailed (filesModified : Nat)
  | destEscapes
  | mkdirFailed
  | moveFailed
  | renamed
deriving DecidableEq

/-- The write loop of `executeRename` over the affected files (one entry per
file, in Go's map-iteration order, supplied here as a list): each successful
write bumps the counter, and the first failure aborts with the current
counter value embedded in the error. -/
def renameWriteLoop (write : List Char → Bool) :
    List (List Char) → Nat → Except Nat Nat
  | [], n => .ok n
  | f :: rest, n => if write f then renameWriteLoop write rest (n + 1) else .error n

/-- `executeRename` after the changes are grouped by file.  `write f` tells
whether `os.WriteFile` succeeds on `f`; `destDirWithin`, `mkdirOk` and
`moveOk` stand for the boundary check on the destination directory,
`os.MkdirAll` and `os.Rename`.  The second component records whether the
`os.Rename` call was attempted. -/
def executeRename (write : List Char → Bool) (affected : List (List Char))
    (destDirWithin mkdirOk moveOk : Bool) : ExecOutcome × Bool :=
  match renameWriteLoop write affected 0 with
  | .error n => (.writeFailed n, false)
  | .ok _ =>
    if !destDirWithin then (.destEscapes, false)
    else if !mkdirOk then (.mkdirFailed, false)
    else if moveOk then (.renamed, true)
    else (.moveFailed, true)

/-! ## Helper lemmas -/

/-- The separator never survives its own `takeWhile` cut. -/
theorem not_mem_takeWhile_ne (c : Char) (l : List Char) :
    c ∉ l.takeWhile (· ≠ c) := by
  intro h
  have := List.mem_takeWhile_imp h
  simp at this

/-- Cutting at a separator that occurs strictly shortens the list. -/
theorem takeWhile_ne_of_mem {c : Char} {l : List Char} (h : c ∈ l) :
    l.takeWhile (· ≠ c) ≠ l := by
  intro he
  exact not_mem_takeWhile_ne c l (by rw [he]; exact h)

/-- Unfolding `goCut` when the separator occurs. -/
theorem goCut_pos {sep : Char} {l : List Char} (h : sep ∈ l) :
    goCut sep l = (l.takeWhile (· ≠ sep), (l.dropWhile (· ≠ sep)).tail, true) := by
  unfold goCut; rw [if_pos h]

/-- Unfolding `goCut` when the separator is absent. -/
theorem goCut_neg {sep : Char} {l : List Char} (h : sep ∉ l) :
    goCut sep l = (l, [], false) := by
  unfold goCut; rw [if_neg h]

/-- Closed form of `normalizeLink`: cut at the first `#` when the input
contains one, else at the first `^`, else the input itself. -/
theorem normalizeLink_eq (l : List Char) :
    normalizeLink l =
      if '#' ∈ l then l.takeWhile (· ≠ '#')
      else if '^' ∈ l then l.takeWhile (· ≠ '^')
      else l := by
  by_cases h1 : '#' ∈ l
  · simp only [normalizeLink, goCut_pos h1, if_pos h1]
  · by_cases h2 : '^' ∈ l
    · simp only [normalizeLink, goCut_neg h1, goCut_pos h2, if_neg h1, if_pos h2]
    · simp only [normalizeLink, goCut_neg h1, goCut_neg h2, if_neg h1, if_neg h2]

/-! ## Claim C4 -/

/-- C4, counterexample: the claim "the link normalizer is idempotent" fails
on the code at the concrete input `a^b#c`: `normalizeLink` cuts it at the
`#` to `a^b`, and a second application cuts again at the `^` to `a` (this
also falsifies "removes exactly the suffix at the first `#` or `^`", whose
cut would give `a` at once). -/
theorem normalizeLink_not_idempotent_cex :
    normalizeLink (normalizeLink (str "a^b#c")) ≠ normalizeLink (str "a^b#c") := by
  decide

/-- C4, amended: `normalize(x)` removes exactly the suffix starting at the
first `#` when `x` contains a `#`, otherwise the suffix starting at the
first `^`, otherwise returns `x` unchanged; and it is idempotent at `x`
exactly when `x` does not contain a `^` before its first `#`. -/
theorem normalizeLink_cut_and_idempotency (l : List Char) :
    (normalizeLink l =
      if '#' ∈ l then l.takeWhile (· ≠ '#')
      else if '^' ∈ l then l.takeWhile (· ≠ '^')
      else l)
    ∧ (normalizeLink (normalizeLink l) = normalizeLink l ↔
        ¬('#' ∈ l ∧ '^' ∈ l.takeWhile (· ≠ '#'))) := by
  refine ⟨normalizeLink_eq l, ?_⟩
  by_cases h1 : '#' ∈ l
  · have hnl : normalizeLink l = l.takeWhile (· ≠ '#') := by
      rw [normalizeLink_eq, if_pos h1]
    have h3 : '#' ∉ l.takeWhile (· ≠ '#') := not_mem_takeWhile_ne _ _
    by_cases h2 : '^' ∈ l.takeWhile (· ≠ '#')
    · have hsecond : normalizeLink (l.takeWhile (· ≠ '#')) =
          (l.takeWhile (· ≠ '#')).takeWhile (· ≠ '^') := by
        rw [normalizeLink_eq, if_neg h3, if_pos h2]
      rw [hnl, hsecond]
      exact iff_of_false (takeWhile_ne_of_mem h2) (fun hn => hn ⟨h1, h2⟩)
    · have hsecond : normalizeLink (l.takeWhile (· ≠ '#')) = l.takeWhile (· ≠ '#') := by
        rw [normalizeLink_eq, if_neg h3, if_neg h2]
      rw [hnl, hsecond]
      exact iff_of_true rfl (fun hc => h2 hc.2)
  · by_cases h2 : '^' ∈ l
    · have hnl : normalizeLink l = l.takeWhile (· ≠ '^') := by
        rw [normalizeLink_eq, if_neg h1, if_pos h2]
      have h3 : '#' ∉ l.takeWhile (· ≠ '^') :=
        fun hm => h1 ((List.takeWhile_prefix _).subset hm)
      have h4 : '^' ∉ l.takeWhile (· ≠ '^') := not_mem_takeWhile_ne _ _
      have hsecond : normalizeLink (l.takeWhile (· ≠ '^')) = l.takeWhile (· ≠ '^') := by
        rw [normalizeLink_eq, if_neg h3, if_neg h4]
      rw [hnl, hsecond]
      exact iff_of_true rfl (fun hc => h1 hc.1)
    · have hnl : normalizeLink l = l := by rw [normalizeLink_eq, if_neg h1, if_neg h2]
      rw [hnl, hnl]
      exact iff_of_true rfl (fun hc => h1 hc.1)

/-! ## Claim C3 -/

/-- C3: the boundary guard returns `true` exactly when both paths
canonicalize (absolute, `.`/`..` resolved) and the canonical candidate
equals the canonical root or extends it by a path separator; any
canonicalization failure yields `false` rather than an error; the sibling
`/vault-2` never matches the root `/vault`; and `.`/`..` segments are
resolved before the comparison. -/
theorem isPathWithinVault_spec :
    (∀ cwd path vaultPath,
       isPathWithinVault cwd path vaultPath = true ↔
         ∃ p v, goAbs cwd path = some p ∧ goAbs cwd vaultPath = some v ∧
           (goClean p = goClean v ∨
            startsWithCL (goClean v ++ str "/") (goClean p) = true))
    ∧ (∀ cwd path vaultPath,
        goAbs cwd path = none ∨ goAbs cwd vaultPath = none →
          isPathWithinVault cwd path vaultPath = false)
    ∧ isPathWithinVault none (str "/vault-2") (str "/vault") = false
    ∧ isPathWithinVault none (str "/vault/sub/../note.md") (str "/x/../vault") = true := by
  refine ⟨?_, ?_, by decide, by decide⟩
  · intro cwd path vaultPath
    rcases hv : goAbs cwd vaultPath with _ | v0 <;>
      rcases hp : goAbs cwd path with _ | p0 <;>
        simp [isPathWithinVault, hv, hp, Bool.or_eq_true, beq_iff_eq]
  · intro cwd path vaultPath h
    rcases h with hp | hv
    · rcases hv2 : goAbs cwd vaultPath with _ | v0 <;>
        simp [isPathWithinVault, hv2, hp]
    · simp [isPathWithinVault, hv]

/-! ## Incoming-link count machinery (for the orphan claims) -/

/-- A bump never decreases any count. -/
theorem bump_le (f : List Char → Nat) (t k : List Char) : f k ≤ bump f t k := by
  unfold bump
  split_ifs <;> omega

/-- One occurrence never decreases any incoming count. -/
theorem processOccurrence_incoming_le (ef efo : List (List Char)) (rp : List Char)
    (n : Nat) (st : ScanState) (raw k : List Char) :
    st.incomingLinks k ≤ (processOccurrence ef efo rp n st raw).incomingLinks k := by
  simp only [processOccurrence]
  split_ifs <;> first
    | exact le_refl _
    | exact bump_le st.incomingLinks (toLowerGo (normalizeLink raw)) k

/-- A nonempty, non-external occurrence bumps the count of its lowercase
normalized target by one. -/
theorem processOccurrence_incoming_bump (ef efo : List (List Char)) (rp : List Char)
    (n : Nat) (st : ScanState) (raw : List Char)
    (h1 : normalizeLink raw ≠ []) (h2 : isExternalLink (normalizeLink raw) = false) :
    (processOccurrence ef efo rp n st raw).incomingLinks (toLowerGo (normalizeLink raw))
      = st.incomingLinks (toLowerGo (normalizeLink raw)) + 1 := by
  simp only [processOccurrence]
  rw [if_neg h1, if_neg (by simp [h2])]
  split_ifs <;> simp [bump]

/-- Folding occurrences never decreases any incoming count. -/
theorem foldl_occ_incoming_le (ef efo : List (List Char)) (rp : List Char) (n : Nat)
    (occs : List (List Char)) (st : ScanState) (k : List Char) :
    st.incomingLinks k ≤
      (occs.foldl (processOccurrence ef efo rp n) st).incomingLinks k := by
  induction occs generalizing st with
  | nil => exact le_refl _
  | cons o os ih =>
    exact le_trans (processOccurrence_incoming_le ef efo rp n st o k) (ih _)

/-- A qualifying occurrence in the folded list forces a strictly larger
count of its target. -/
theorem foldl_occ_incoming_bump (ef efo : List (List Char)) (rp : List Char) (n : Nat)
    (occs : List (List Char)) (st : ScanState) (raw : List Char) (hmem : raw ∈ occs)
    (h1 : normalizeLink raw ≠ []) (h2 : isExternalLink (normalizeLink raw) = false) :
    st.incomingLinks (toLowerGo (normalizeLink raw)) + 1 ≤
      (occs.foldl (processOccurrence ef efo rp n) st).incomingLinks
        (toLowerGo (normalizeLink raw)) := by
  induction occs generalizing st with
  | nil => cases hmem
  | cons o os ih =>
    rcases List.mem_cons.mp hmem with h | h
    · subst h
      calc st.incomingLinks (toLowerGo (normalizeLink raw)) + 1
          = (processOccurrence ef efo rp n st raw).incomingLinks
              (toLowerGo (normalizeLink raw)) :=
            (processOccurrence_incoming_bump ef efo rp n st raw h1 h2).symm
        _ ≤ _ := foldl_occ_incoming_le ef efo rp n os _ _
    · exact le_trans
        (Nat.add_le_add_right (processOccurrence_incoming_le ef efo rp n st o _) 1)
        (ih _ h)

/-- `processLine` never decreases any incoming count. -/
theorem processLine_incoming_le (ef efo : List (List Char)) (rp : List Char)
    (n : Nat) (line : List Char) (st : ScanState) (k : List Char) :
    st.incomingLinks k ≤ (processLine ef efo rp n line st).incomingLinks k :=
  foldl_occ_incoming_le ef efo rp n _ st k

/-- A qualifying occurrence on a line bumps its target's count. -/
theorem processLine_incoming_bump (ef efo : List (List Char)) (rp : List Char)
    (n : Nat) (line : List Char) (st : ScanState) (raw : List Char)
    (hmem : raw ∈ extractWikilinks line ++ extractEmbeds line)
    (h1 : normalizeLink raw ≠ []) (h2 : isExternalLink (normalizeLink raw) = false) :
    st.incomingLinks (toLowerGo (normalizeLink raw)) + 1 ≤
      (processLine ef efo rp n line st).incomingLinks (toLowerGo (normalizeLink raw)) :=
  foldl_occ_incoming_bump ef efo rp n _ st raw hmem h1 h2

/-- The line loop never decreases any incoming count. -/
theorem processLinesAux_incoming_le (ef efo : List (List Char)) (rp : List Char)
    (lines : List (List Char)) (n : Nat) (hFM : Bool) (st : ScanState) (k : List Char) :
    st.incomingLinks k ≤ (processLinesAux ef efo rp lines n hFM st).incomingLinks k := by
  induction lines generalizing n hFM st with
  | nil =>
    unfold processLinesAux
    split_ifs <;> exact le_refl _
  | cons l ls ih =>
    unfold processLinesAux
    split_ifs with h
    · exact le_refl _
    · exact le_trans (processLine_incoming_le ef efo rp (n + 1) l st k) (ih _ _ _)

/-- A qualifying occurrence on a line the scanner actually reaches (no
over-long line at or before it) bumps its target's count across the whole
line loop. -/
theorem processLinesAux_incoming_bump (ef efo : List (List Char)) (rp : List Char)
    (lines : List (List Char)) (n : Nat) (hFM : Bool) (st : ScanState)
    (i : Nat) (line raw : List Char)
    (hget : lines.get? i = some line)
    (htake : ∀ m ∈ lines.take (i + 1), m.length ≤ maxScanTokenSize)
    (hmem : raw ∈ extractWikilinks line ++ extractEmbeds line)
    (h1 : normalizeLink raw ≠ []) (h2 : isExternalLink (normalizeLink raw) = false) :
    st.incomingLinks (toLowerGo (normalizeLink raw)) + 1 ≤
      (processLinesAux ef efo rp lines n hFM st).incomingLinks
        (toLowerGo (normalizeLink raw)) := by
  induction lines generalizing i n hFM st with
  | nil => simp at hget
  | cons l ls ih =>
    have hl : l.length ≤ maxScanTokenSize := by
      refine htake l ?_
      rw [List.take_succ_cons]
      exact List.mem_cons_self l _
    unfold processLinesAux
    rw [if_neg (by omega)]
    cases i with
    | zero =>
      have hline : l = line := by simpa using hget
      subst hline
      exact le_trans
        (processLine_incoming_bump ef efo rp (n + 1) l st raw hmem h1 h2)
        (processLinesAux_incoming_le ef efo rp ls (n + 1) _ _ _)
    | succ j =>
      have hget2 : ls.get? j = some line := by simpa using hget
      have htake2 : ∀ m ∈ ls.take (j + 1), m.length ≤ maxScanTokenSize := by
        intro m hm
        refine htake m ?_
        rw [List.take_succ_cons]
        exact List.mem_cons_of_mem l hm
      exact le_trans
        (Nat.add_le_add_right
          (processLine_incoming_le ef efo rp (n + 1) l st _) 1)
        (ih _ _ _ j hget2 htake2)

/-- A qualifying occurrence of file `g`, on a line its scan reaches. -/
def occurrenceRef (g : VaultFile) (key : List Char) : Prop :=
  ∃ i line raw, g.lines.get? i = some line ∧
    (∀ m ∈ g.lines.take (i + 1), m.length ≤ maxScanTokenSize) ∧
    raw ∈ extractWikilinks line ++ extractEmbeds line ∧
    normalizeLink raw ≠ [] ∧ isExternalLink (normalizeLink raw) = false ∧
    toLowerGo (normalizeLink raw) = key

/-- The scan fold over files never decreases any incoming count. -/
theorem scanFold_incoming_le (ef efo : List (List Char)) (files : List VaultFile)
    (st : ScanState) (k : List Char) :
    st.incomingLinks k ≤
      (files.foldl (fun st f => processFile ef efo f.relPath f.lines st) st).incomingLinks k := by
  induction files generalizing st with
  | nil => exact le_refl _
  | cons f fs ih =>
    exact le_trans (processLinesAux_incoming_le ef efo f.relPath f.lines 0 false st k) (ih _)

/-- A qualifying occurrence anywhere in the vault makes its target's final
count positive. -/
theorem incoming_pos_of_ref (files : List VaultFile) (folders : List (List Char))
    (g : VaultFile) (key : List Char) (hg : g ∈ files) (hocc : occurrenceRef g key) :
    1 ≤ (scanVault files folders).incomingLinks key := by
  obtain ⟨i, line, raw, hget, htake, hmem, h1, h2, hkey⟩ := hocc
  subst hkey
  obtain ⟨s, t, rfl⟩ := List.append_of_mem hg
  show 1 ≤ (((s ++ g :: t).foldl
      (fun st f => processFile (buildExistingFiles (s ++ g :: t))
        (buildExistingFolders folders) f.relPath f.lines st) initState)).incomingLinks _
  rw [List.foldl_append, List.foldl_cons]
  refine le_trans ?_ (scanFold_incoming_le _ _ t _ _)
  refine le_trans ?_ (processLinesAux_incoming_bump _ _ g.relPath g.lines 0 false _
    i line raw hget htake hmem h1 h2)
  omega

/-! ## Orphan list machinery -/

/-- The orphan list of the scan outcome is the post-pass over the final
incoming counts. -/
theorem scanVault_orphans_eq (files : List VaultFile) (folders : List (List Char)) :
    (scanVault files folders).orphans =
      orphanList files ((scanVault files folders).incomingLinks) := rfl

/-- The orphan test, spelled out. -/
theorem isOrphanFile_iff (inc : List Char → Nat) (rp : List Char) :
    isOrphanFile inc rp = true ↔
      (inc (toLowerGo (trimMd rp)) = 0 ∧ inc (toLowerGo rp) = 0 ∧
       inc (toLowerGo (trimMd (goBase rp))) = 0 ∧
       startsWithCL (str "_") (goBase rp) = false ∧
       startsWithCL (str "index") (goBase rp) = false) := by
  simp [isOrphanFile, Bool.and_eq_true, Bool.not_eq_true', and_assoc]

/-- Membership in the orphan list is the orphan test on the relative path
(the test reads nothing but the relative path). -/
theorem mem_orphanList_iff (files : List VaultFile) (inc : List Char → Nat)
    (r : List Char) (h : ∃ f ∈ files, f.relPath = r) :
    r ∈ orphanList files inc ↔ isOrphanFile inc r = true := by
  constructor
  · intro hm
    simp only [orphanList, List.mem_map, List.mem_filter] at hm
    obtain ⟨f, ⟨hf, hp⟩, heq⟩ := hm
    rw [← heq]
    exact hp
  · intro hp
    obtain ⟨f, hf, heq⟩ := h
    simp only [orphanList, List.mem_map, List.mem_filter]
    exact ⟨f, ⟨hf, by rw [heq]; exact hp⟩, heq⟩

/-- A file one of whose keys has a positive final count is not orphaned. -/
theorem not_orphan_of_key_pos (files : List VaultFile) (folders : List (List Char))
    (f : VaultFile) (hf : f ∈ files) (key : List Char)
    (hkey : key ∈ fileKeys f.relPath)
    (hpos : 1 ≤ (scanVault files folders).incomingLinks key) :
    f.relPath ∉ (scanVault files folders).orphans := by
  intro hmem
  rw [scanVault_orphans_eq,
    mem_orphanList_iff files _ f.relPath ⟨f, hf, rfl⟩, isOrphanFile_iff] at hmem
  obtain ⟨hz1, hz2, hz3, _, _⟩ := hmem
  simp only [fileKeys, List.mem_cons, List.not_mem_nil, or_false] at hkey
  rcases hkey with h | h | h <;> subst h <;> omega

/-! ## Claim C1 -/

/-- C1: a markdown file is in the scan's orphan list iff all three of its
lowercase key variants have zero final incoming-link count and its basename
starts with neither `_` nor `index`; consequently a file one of whose keys
is the lowercase normalized target of any non-external link occurrence
reached by the scan (in particular, one coming from elsewhere) is never in
the orphan list, regardless of its own name. -/
theorem scanVault_orphan_iff (files : List VaultFile) (folders : List (List Char))
    (f : VaultFile) (hf : f ∈ files) :
    (f.relPath ∈ (scanVault files folders).orphans ↔
      ((scanVault files folders).incomingLinks (toLowerGo (trimMd f.relPath)) = 0 ∧
       (scanVault files folders).incomingLinks (toLowerGo f.relPath) = 0 ∧
       (scanVault files folders).incomingLinks (toLowerGo (trimMd (goBase f.relPath))) = 0 ∧
       startsWithCL (str "_") (goBase f.relPath) = false ∧
       startsWithCL (str "index") (goBase f.relPath) = false))
    ∧ (∀ g ∈ files, ∀ key ∈ fileKeys f.relPath, occurrenceRef g key →
        f.relPath ∉ (scanVault files folders).orphans) := by
  constructor
  · rw [scanVault_orphans_eq,
      mem_orphanList_iff files _ f.relPath ⟨f, hf, rfl⟩, isOrphanFile_iff]
  · intro g hg key hkey hocc
    exact not_orphan_of_key_pos files folders f hf key hkey
      (incoming_pos_of_ref files folders g key hg hocc)

/-- C1 witness: in a one-file vault the unlinked, unexempted file `a.md` is
in the orphan list, by the forward use of the characterization. -/
theorem scanVault_orphan_iff_witness :
    str "a.md" ∈ (scanVault [⟨str "a.md", []⟩] []).orphans :=
  ((scanVault_orphan_iff [⟨str "a.md", []⟩] [] ⟨str "a.md", []⟩
      (by decide)).1).mpr (by decide)

/-! ## Claim C10 -/

/-- C10: the link-graph builder never excludes occurrences found in a file
itself, so a file containing a reachable non-external link whose lowercase
normalized target equals one of its own three key variants is never
reported as an orphan: a self-reference alone removes it from the orphan
list. -/
theorem scanVault_self_ref_not_orphan (files : List VaultFile)
    (folders : List (List Char)) (f : VaultFile) (hf : f ∈ files)
    (key : List Char) (hkey : key ∈ fileKeys f.relPath)
    (hocc : occurrenceRef f key) :
    f.relPath ∉ (scanVault files folders).orphans :=
  not_orphan_of_key_pos files folders f hf key hkey
    (incoming_pos_of_ref files folders f key hf hocc)

/-- C10 witness: `self.md`, whose only line is `[[self]]`, is kept out of
the orphan list by its own link. -/
theorem scanVault_self_ref_not_orphan_witness :
    str "self.md" ∉ (scanVault [⟨str "self.md", [str "[[self]]"]⟩] []).orphans :=
  scanVault_self_ref_not_orphan [⟨str "self.md", [str "[[self]]"]⟩] []
    ⟨str "self.md", [str "[[self]]"]⟩ (by decide) (str "self") (by decide)
    ⟨0, str "[[self]]", str "self", rfl, by decide, by decide, by decide, by decide,
      by decide⟩

/-! ## Claim C8 -/

/-- The vault of test scenario 1. -/
def scenario1Files : List VaultFile :=
  [⟨str "index.md", []⟩,
   ⟨str "note-a.md", [str "See [[note-b]]"]⟩,
   ⟨str "note-b.md", []⟩,
   ⟨str "note-c.md", [str "[[missing-note]]"]⟩]

/-- C8: on the scenario-1 vault the scan yields incoming-link count 1 for
`note-b`, orphan list exactly `note-a.md` and `note-c.md`, and exactly one
dead link, `missing-note` at line 1 of `note-c.md`. -/
theorem scanVault_scenario1 :
    (scanVault scenario1Files []).incomingLinks (str "note-b") = 1 ∧
    (scanVault scenario1Files []).orphans = [str "note-a.md", str "note-c.md"] ∧
    (scanVault scenario1Files []).deadLinks =
      [⟨str "note-c.md", str "missing-note", 1⟩] := by
  decide

/-! ## Claim C2 -/

/-- C2 fails on the code: `wikilinkRegex` already matches the bracket part
of an embed, and `processFile` appends the embed-regex matches to the
wikilink-regex matches, so the single embed occurrence `![[missing]]` is
recorded as two identical DeadLinks (and its incoming count is 2, not 1). -/
theorem processFile_embed_double_count :
    (scanVault [⟨str "a.md", [str "![[missing]]"]⟩] []).deadLinks =
      [⟨str "a.md", str "missing", 1⟩, ⟨str "a.md", str "missing", 1⟩] ∧
    (scanVault [⟨str "a.md", [str "![[missing]]"]⟩] []).incomingLinks (str "missing") = 2 := by
  decide

/-! ## Claim C9 -/

/-- C9 fails on the code: with old identifier `a/foo`, the distinct file
`b/foo.md` merely shares the basename `foo`, yet `findBacklinksForRename`
skips it entirely and returns no candidate — although scanning it (second
conjunct) would have matched its `[[a/foo]]` line. -/
theorem findBacklinksForRename_skips_same_basename :
    findBacklinksForRename
        [⟨str "a/foo.md", []⟩, ⟨str "b/foo.md", [str "See [[a/foo]]"]⟩]
        (str "a/foo") = [] ∧
    scanFileForRenameBacklinks (str "b/foo.md") [str "See [[a/foo]]"]
        (str "foo") (str "a/foo") =
      [⟨str "b/foo.md", 1, str "See [[a/foo]]"⟩] := by
  decide

/-! ## Claim C5 -/

/-- When no file matches the identifier by exact path, the walk accumulates
precisely the basename matches, in order. -/
theorem findNoteAux_no_exact (nl nbl : List Char) (files acc : List (List Char))
    (h : ∀ f ∈ files, toLowerGo (trimMd f) ≠ nl) :
    findNoteAux nl nbl files acc =
      (none, acc ++ files.filter (fun f => toLowerGo (trimMd (goBase f)) == nbl)) := by
  induction files generalizing acc with
  | nil => simp [findNoteAux]
  | cons f fs ih =>
    have hf : toLowerGo (trimMd f) ≠ nl := h f (List.mem_cons_self f fs)
    have hrest : ∀ g ∈ fs, toLowerGo (trimMd g) ≠ nl :=
      fun g hg => h g (List.mem_cons_of_mem f hg)
    unfold findNoteAux
    rw [if_neg hf]
    split_ifs with hb
    · rw [ih _ hrest]
      simp [List.filter_cons, hb]
    · rw [ih _ hrest]
      simp [List.filter_cons, hb]

/-- C5: under rename resolution of the old identifier, when no file matches
by exact path, zero basename matches produce the not-found error and two or
more basename matches produce the ambiguous error carrying all of them — a
single file is never silently picked out of several. -/
theorem findNoteFile_resolution (files : List (List Char)) (noteName : List Char)
    (hnoexact : ∀ f ∈ files, toLowerGo (trimMd f) ≠ toLowerGo noteName) :
    (files.filter (fun f => toLowerGo (trimMd (goBase f)) == toLowerGo (goBase noteName)) = [] →
       findNoteFile files noteName = .error .notFound)
    ∧ (∀ ms,
        files.filter (fun f => toLowerGo (trimMd (goBase f)) == toLowerGo (goBase noteName)) = ms →
        1 < ms.length →
        findNoteFile files noteName = .error (.ambiguous ms)) := by
  have haux := findNoteAux_no_exact (toLowerGo noteName) (toLowerGo (goBase noteName))
    files [] hnoexact
  rw [List.nil_append] at haux
  constructor
  · intro hz
    unfold findNoteFile
    rw [haux, hz]
  · intro ms hms hlen
    unfold findNoteFile
    rw [haux, hms]
    rcases ms with _ | ⟨a, _ | ⟨b, t⟩⟩
    · simp at hlen
    · simp at hlen
    · rfl

/-- C5 witness: `foo` matches `a/foo.md` and `b/foo.md` by basename only,
and resolution reports both in an ambiguous error. -/
theorem findNoteFile_resolution_witness :
    findNoteFile [str "a/foo.md", str "b/foo.md"] (str "foo") =
      .error (.ambiguous [str "a/foo.md", str "b/foo.md"]) :=
  (findNoteFile_resolution [str "a/foo.md", str "b/foo.md"] (str "foo")
      (by decide)).2 [str "a/foo.md", str "b/foo.md"] (by decide) (by decide)

/-! ## Claim C7 -/

/-- The write loop stops at the first failing file and reports the running
counter, which by then holds the number of successfully written files. -/
theorem renameWriteLoop_fail (write : List Char → Bool) (l : List (List Char)) (n : Nat)
    (h : ∃ f ∈ l, write f = false) :
    renameWriteLoop write l n = .error (n + (l.takeWhile write).length) := by
  induction l generalizing n with
  | nil =>
    obtain ⟨f, hf, _⟩ := h
    cases hf
  | cons f fs ih =>
    unfold renameWriteLoop
    by_cases hw : write f = true
    · rw [if_pos hw]
      have h2 : ∃ g ∈ fs, write g = false := by
        obtain ⟨g, hg, hgf⟩ := h
        rcases List.mem_cons.mp hg with rfl | hg2
        · rw [hw] at hgf; cases hgf
        · exact ⟨g, hg2, hgf⟩
      rw [ih _ h2]
      have hlen : (List.takeWhile write (f :: fs)).length =
          (List.takeWhile write fs).length + 1 := by
        simp [List.takeWhile_cons, hw]
      rw [hlen]
      exact congrArg Except.error (by omega)
    · rw [if_neg hw]
      have hlen : (List.takeWhile write (f :: fs)).length = 0 := by
        simp [List.takeWhile_cons, hw]
      rw [hlen, Nat.add_zero]

/-- C7: if some affected file's write fails, `executeRename` aborts with a
write-failure error whose reported count is exactly the number of files
already successfully modified (the failure-free prefix, each member of
which did succeed), and the source-to-destination move is never attempted. -/
theorem executeRename_write_failure (write : List Char → Bool)
    (affected : List (List Char)) (destDirWithin mkdirOk moveOk : Bool)
    (h : ∃ f ∈ affected, write f = false) :
    executeRename write affected destDirWithin mkdirOk moveOk =
      (.writeFailed ((affected.takeWhile write).length), false)
    ∧ (∀ f ∈ affected.takeWhile write, write f = true) := by
  constructor
  · unfold executeRename
    rw [renameWriteLoop_fail write affected 0 h]
    simp
  · intro f hf
    exact List.mem_takeWhile_imp hf

/-- C7 witness: with the write on `bad.md` failing after `a.md` succeeded,
the rename aborts reporting one modified file and no move. -/
theorem executeRename_write_failure_witness :
    executeRename (fun f => f != str "bad.md")
        [str "a.md", str "bad.md", str "c.md"] true true true =
      (.writeFailed 1, false) := by
  have h := (executeRename_write_failure (fun f => f != str "bad.md")
    [str "a.md", str "bad.md", str "c.md"] true true true
    ⟨str "bad.md", by decide, by decide⟩).1
  exact h.trans (by decide)

/-! ## Claim C6 -/

/-- A single line of 70000 characters: well beyond the default scanner's
64KB token limit but below "a few hundred KB". -/
def blobLine : List Char := List.replicate 70000 'a'

/-- The vault exercising the scanner limit: `blob.md` has the over-long
line 1 and a link to `note-b` on line 2. -/
def c6Files : List VaultFile :=
  [⟨str "blob.md", [blobLine, str "[[note-b]]"]⟩, ⟨str "note-b.md", []⟩]

/-- The scan outcome's incoming map is that of the file fold. -/
theorem scanVault_incoming_eq (files : List VaultFile) (folders : List (List Char)) :
    (scanVault files folders).incomingLinks =
      (files.foldl (fun st f => processFile (buildExistingFiles files)
        (buildExistingFolders folders) f.relPath f.lines st) initState).incomingLinks := rfl

/-- In a two-file vault whose first file opens with an over-long line, that
whole file contributes nothing: the scanner error drops it and the final
incoming map is the second file's alone. -/
theorem scanVault_first_overlong_incoming (f1 f2 : VaultFile) (folders : List (List Char))
    (l1 : List Char) (rest : List (List Char))
    (hlines : f1.lines = l1 :: rest) (hlen : maxScanTokenSize < l1.length) :
    (scanVault [f1, f2] folders).incomingLinks =
      (processFile (buildExistingFiles [f1, f2]) (buildExistingFolders folders)
        f2.relPath f2.lines initState).incomingLinks := by
  rw [scanVault_incoming_eq]
  show (processFile (buildExistingFiles [f1, f2]) (buildExistingFolders folders)
      f2.relPath f2.lines
      (processFile (buildExistingFiles [f1, f2]) (buildExistingFolders folders)
        f1.relPath f1.lines initState)).incomingLinks = _
  rw [hlines]
  conv_lhs =>
    rw [show processFile (buildExistingFiles [f1, f2]) (buildExistingFolders folders)
      f1.relPath (l1 :: rest) initState = initState from by
        unfold processFile processLinesAux
        rw [if_pos hlen]]

/-- C6 fails on the code: `processFile` reads with the default
`bufio.Scanner` (64KB token limit), so `blob.md`'s scan aborts at its
70000-character line 1 and the `[[note-b]]` link on line 2 is never
accounted — `note-b` ends with zero incoming links and `note-b.md` is
reported as an orphan, where the claim requires the parse to complete and
the later link to be counted. -/
theorem scanVault_default_scanner_truncates :
    (scanVault c6Files []).incomingLinks (str "note-b") = 0 ∧
    str "note-b.md" ∈ (scanVault c6Files []).orphans := by
  have hlen : maxScanTokenSize < blobLine.length := by
    have h70 : blobLine.length = 70000 := by
      unfold blobLine
      exact List.length_replicate 70000 'a'
    rw [h70]
    decide
  have hc : c6Files = [⟨str "blob.md", [blobLine, str "[[note-b]]"]⟩,
      ⟨str "note-b.md", []⟩] := rfl
  constructor
  · rw [hc, scanVault_first_overlong_incoming _ _ _ blobLine [str "[[note-b]]"] rfl hlen]
    decide
  · rw [hc, scanVault_orphans_eq,
      scanVault_first_overlong_incoming _ _ _ blobLine [str "[[note-b]]"] rfl hlen]
    decide

end ObsidianCLI
